import Mathlib

/-!
Shallow embedding of the core pipeline of src/web_scraping.py:
the date-window arithmetic (delta_date), the rate-limited per-day
ingestion loop (the iterate_day decorator wrapped around req_new),
the per-ticker driver loop of FinnHub.__init__, the SQLite table
writer (create_table), the cleaner (clean_table), the language
filter (lang_review), and the date validation of Init.__init__.
-/

namespace WebScrap

/-- A calendar date as parsed by datetime.strptime with format Y-m-d. -/
structure Date where
  y : Nat
  m : Nat
  d : Nat
deriving DecidableEq

/-- Split a character list on the dash separator. -/
def splitDash : List Char → List Char → List (List Char)
  | [], acc => [acc.reverse]
  | '-' :: rest, acc => acc.reverse :: splitDash rest []
  | c :: rest, acc => splitDash rest (c :: acc)

/-- Interpret a nonempty all-digit character list as a natural number. -/
def digitsToNat : List Char → Option Nat
  | [] => none
  | cs =>
    if cs.all Char.isDigit then
      some (cs.foldl (fun a c => a * 10 + (c.toNat - 48)) 0)
    else none

/-- Leap-year test of the Gregorian calendar. -/
def isLeap (y : Nat) : Bool :=
  (y % 4 = 0 && y % 100 != 0) || y % 400 = 0

/-- Number of days in a month, as validated by strptime. -/
def daysInMonth (y m : Nat) : Nat :=
  match m with
  | 1 => 31 | 2 => if isLeap y then 29 else 28 | 3 => 31 | 4 => 30
  | 5 => 31 | 6 => 30 | 7 => 31 | 8 => 31 | 9 => 30 | 10 => 31
  | 11 => 30 | 12 => 31 | _ => 0

/-- datetime.strptime(s, Y-m-d): three dash-separated digit groups forming
a valid calendar date (year at least 1, as in Python datetime). -/
def parseDate (s : String) : Option Date :=
  match splitDash s.toList [] with
  | [ys, ms, ds] =>
    match digitsToNat ys, digitsToNat ms, digitsToNat ds with
    | some y, some m, some d =>
      if 1 ≤ y && 1 ≤ m && m ≤ 12 && 1 ≤ d && d ≤ daysInMonth y m then
        some ⟨y, m, d⟩
      else none
    | _, _, _ => none
  | _ => none

/-- Day ordinal of a calendar date (days since 0000-03-01), so that
differences of ordinals are exact day counts, as for Python datetime
subtraction of two midnight datetimes. -/
def toOrdinal (dt : Date) : Nat :=
  let y := if dt.m ≤ 2 then dt.y - 1 else dt.y
  let era := y / 400
  let yoe := y % 400
  let mp := (dt.m + 9) % 12
  let doy := (153 * mp + 2) / 5 + dt.d - 1
  let doe := yoe * 365 + yoe / 4 - yoe / 100 + doy
  era * 146097 + doe

/-- delta_date (src/web_scraping.py lines 41-44): the absolute number of
days between two dates, each parsed by strptime; none models the
ValueError strptime raises on an unparseable input. -/
def delta_date (start_date end_date : String) : Option Nat :=
  match parseDate start_date, parseDate end_date with
  | some s, some e => some ((toOrdinal s : Int) - (toOrdinal e : Int)).natAbs
  | _, _ => none

/-- A raw news item as decoded from the JSON response body: an object
mapping field names to values, where a present key with value none
models a JSON null (inserted as SQL NULL). -/
abbrev NewsItem : Type := List (String × Option String)

/-- FinnHub.max_call (line 159): maximum api calls per minute. -/
def max_call : Nat := 60

/-- FinnHub.time_sleep (line 160): seconds slept when the quota margin
is reached. -/
def time_sleep : Nat := 60

/-- One recorded call of the rate limiter, as performed by the body of
iterate_day (lines 270 and 274-276): the counter is incremented by one;
if it has reached max_call - 1 the limiter sleeps and the counter is set
to 0. Returns (incremented value, counter after the call, paused?). -/
def record_call (nb : Nat) : Nat × Nat × Bool :=
  if nb + 1 = max_call - 1 then (nb + 1, 0, true) else (nb + 1, nb + 1, false)

/-- Observable events of the ingestion loop. -/
inductive Ev where
  | inc : Nat → Ev
  | fetch : Nat → Ev
  | pause : Nat → Ev
deriving DecidableEq

/-- The loop of the iterate_day decorator (lines 264-277), run for k
iterations starting at day ordinal d with accumulated items js and
request counter nb. Each iteration increments nb_request, calls the
wrapped req_new body (which appends the items fetched for that day to
js_data), advances the date by one day, and pauses and resets the
counter when it has reached max_call - 1. Returns the event trace, the
final js_data and the final nb_request. -/
def iterateDayAux (f : Nat → List NewsItem) : Nat → Nat → List NewsItem → Nat → List Ev × List NewsItem × Nat
  | 0, _, js, nb => ([], js, nb)
  | k + 1, d, js, nb =>
    ((if (record_call nb).2.2 then
        [Ev.inc (record_call nb).1, Ev.fetch d, Ev.pause time_sleep]
      else
        [Ev.inc (record_call nb).1, Ev.fetch d])
      ++ (iterateDayAux f k (d + 1) (js ++ f d) (record_call nb).2.1).1,
     (iterateDayAux f k (d + 1) (js ++ f d) (record_call nb).2.1).2.1,
     (iterateDayAux f k (d + 1) (js ++ f d) (record_call nb).2.1).2.2)

/-- req_new wrapped in iterate_day (lines 260-277 and 303-309), with the
network abstracted by f giving the decoded items of each day: the loop
runs delta_date + 1 times starting from the parsed start date. -/
def iterate_day_run (f : Nat → List NewsItem) (start_date end_date : String)
    (js : List NewsItem) (nb : Nat) : Option (List Ev × List NewsItem × Nat) :=
  match delta_date start_date end_date, parseDate start_date with
  | some dd, some sd => some (iterateDayAux f (dd + 1) (toOrdinal sd) js nb)
  | _, _ => none

/-- The ordinals of the days fetched in an event trace. -/
def fetchedDays (evs : List Ev) : List Nat :=
  evs.filterMap (fun e => match e with | Ev.fetch d => some d | _ => none)

/-- The counter values recorded by the increments of an event trace. -/
def incVals (evs : List Ev) : List Nat :=
  evs.filterMap (fun e => match e with | Ev.inc n => some n | _ => none)

/-- The date window visited by the ingestion loop, as a function of the
two date strings (the Date Window of the spec, realized by delta_date
together with the day iteration of iterate_day). -/
def days_between (start_date end_date : String) : Option (List Nat) :=
  (iterate_day_run (fun _ => ([] : List NewsItem)) start_date end_date [] 0).map
    (fun r => fetchedDays r.1)

/-- Items accumulated over k consecutive days starting at ordinal d. -/
def windowItems (f : Nat → List NewsItem) : Nat → Nat → List NewsItem
  | 0, _ => []
  | k + 1, d => f d ++ windowItems f k (d + 1)

/-- Counter evolution over k recorded calls, ignoring days and items. -/
def nbSteps : Nat → Nat → Nat
  | 0, nb => nb
  | k + 1, nb => nbSteps k (record_call nb).2.1

/-- The per-ticker driver loop of FinnHub.init (lines 179-186): for
each ticker the js_data buffer is cleared, req_new runs the day loop
appending into the cleared buffer while the request counter nb is
carried over unchanged from the previous ticker, and create_table then
writes the accumulated buffer. Returns, per ticker, the items handed to
the writer, together with the final counter. -/
def finnhubLoop (f : String → Nat → List NewsItem) (k d : Nat) :
    List String → List NewsItem → Nat → List (String × List NewsItem) × Nat
  | [], _, nb => ([], nb)
  | t :: ts, _js, nb =>
    ((t, (iterateDayAux (f t) k d ([] : List NewsItem) nb).2.1)
        :: (finnhubLoop f k d ts (iterateDayAux (f t) k d ([] : List NewsItem) nb).2.1
            (iterateDayAux (f t) k d ([] : List NewsItem) nb).2.2).1,
     (finnhubLoop f k d ts (iterateDayAux (f t) k d ([] : List NewsItem) nb).2.1
        (iterateDayAux (f t) k d ([] : List NewsItem) nb).2.2).2)

/-- Traces in which every fetch is immediately preceded by exactly one
counter increment, and every increment is followed by exactly one fetch,
possibly followed by a pause. -/
inductive IncThenFetch : List Ev → Prop where
  | nil : IncThenFetch []
  | pair (n d : Nat) (rest : List Ev) :
      IncThenFetch rest → IncThenFetch (Ev.inc n :: Ev.fetch d :: rest)
  | pairPause (n d p : Nat) (rest : List Ev) :
      IncThenFetch rest →
      IncThenFetch (Ev.inc n :: Ev.fetch d :: Ev.pause p :: rest)

theorem range_map_add_succ (k d : Nat) :
    (List.range (k + 1)).map (fun i => d + i)
      = d :: (List.range k).map (fun i => (d + 1) + i) := by
  rw [List.range_succ_eq_map, List.map_cons, List.map_map]
  refine congrArg₂ _ (by omega) (List.map_congr_left ?_)
  intro a _
  simp [Function.comp]
  omega

theorem fetchedDays_iterateDayAux (f : Nat → List NewsItem) (k : Nat) :
    ∀ (d : Nat) (js : List NewsItem) (nb : Nat),
      fetchedDays (iterateDayAux f k d js nb).1
        = (List.range k).map (fun i => d + i) := by
  induction k with
  | zero => intro d js nb; simp [iterateDayAux, fetchedDays]
  | succ k ih =>
    intro d js nb
    rw [range_map_add_succ]
    by_cases h : (record_call nb).2.2 <;>
      simp [iterateDayAux, fetchedDays, h, List.filterMap_append] <;>
      exact ih (d + 1) (js ++ f d) (record_call nb).2.1

theorem js_iterateDayAux (f : Nat → List NewsItem) (k : Nat) :
    ∀ (d : Nat) (js : List NewsItem) (nb : Nat),
      (iterateDayAux f k d js nb).2.1 = js ++ windowItems f k d := by
  induction k with
  | zero =>
    intro d js nb
    show js = js ++ ([] : List NewsItem)
    simp [iterateDayAux, windowItems]
  | succ k ih =>
    intro d js nb
    show (iterateDayAux f k (d + 1) (js ++ f d) (record_call nb).2.1).2.1 = _
    rw [ih (d + 1) (js ++ f d) (record_call nb).2.1]
    show (js ++ f d) ++ windowItems f k (d+1) = js ++ (f d ++ windowItems f k (d+1))
    exact (List.append_assoc _ _ _)

theorem nb_iterateDayAux (f : Nat → List NewsItem) (k : Nat) :
    ∀ (d : Nat) (js : List NewsItem) (nb : Nat),
      (iterateDayAux f k d js nb).2.2 = nbSteps k nb := by
  induction k with
  | zero => intro d js nb; rfl
  | succ k ih =>
    intro d js nb
    show (iterateDayAux f k (d + 1) (js ++ f d) (record_call nb).2.1).2.2 = _
    rw [ih (d + 1) (js ++ f d) (record_call nb).2.1]
    rfl

theorem record_call_post_le (nb : Nat) (h : nb ≤ max_call - 2) :
    (record_call nb).2.1 ≤ max_call - 2 := by
  unfold record_call max_call at *
  split <;> simp
  omega

theorem incVals_iterateDayAux_succ (f : Nat → List NewsItem)
    (k d : Nat) (js : List NewsItem) (nb : Nat) :
    incVals (iterateDayAux f (k + 1) d js nb).1
      = (record_call nb).1
          :: incVals (iterateDayAux f k (d + 1) (js ++ f d) (record_call nb).2.1).1 := by
  by_cases h : (record_call nb).2.2 <;>
    simp [iterateDayAux, incVals, h, List.filterMap_append]

theorem incVals_iterateDayAux_le (f : Nat → List NewsItem) (k : Nat) :
    ∀ (d : Nat) (js : List NewsItem) (nb : Nat), nb ≤ max_call - 2 →
      ∀ v ∈ incVals (iterateDayAux f k d js nb).1, v ≤ max_call - 1 := by
  induction k with
  | zero => intro d js nb _ v hv; simp [iterateDayAux, incVals] at hv
  | succ k ih =>
    intro d js nb hnb v hv
    rw [incVals_iterateDayAux_succ] at hv
    rcases List.mem_cons.mp hv with hv | hv
    · subst hv
      unfold record_call max_call at *
      split <;> simp
      all_goals omega
    · exact ih (d + 1) (js ++ f d) (record_call nb).2.1
        (record_call_post_le nb hnb) v hv

theorem final_nb_iterateDayAux_le (f : Nat → List NewsItem) (k : Nat) :
    ∀ (d : Nat) (js : List NewsItem) (nb : Nat), nb ≤ max_call - 2 →
      (iterateDayAux f k d js nb).2.2 ≤ max_call - 2 := by
  induction k with
  | zero => intro d js nb h; exact h
  | succ k ih =>
    intro d js nb h
    show (iterateDayAux f k (d + 1) (js ++ f d) (record_call nb).2.1).2.2 ≤ _
    exact ih (d + 1) (js ++ f d) (record_call nb).2.1 (record_call_post_le nb h)

/-- The seconds of the pauses of an event trace. -/
def pauseVals (evs : List Ev) : List Nat :=
  evs.filterMap (fun e => match e with | Ev.pause p => some p | _ => none)

theorem pauseVals_iterateDayAux_succ (f : Nat → List NewsItem)
    (k d : Nat) (js : List NewsItem) (nb : Nat) :
    pauseVals (iterateDayAux f (k + 1) d js nb).1
      = (if (record_call nb).2.2 then [time_sleep] else [])
          ++ pauseVals (iterateDayAux f k (d + 1) (js ++ f d) (record_call nb).2.1).1 := by
  by_cases h : (record_call nb).2.2 <;>
    simp [iterateDayAux, pauseVals, h, List.filterMap_append]

theorem pauseVals_iterateDayAux (f : Nat → List NewsItem) (k : Nat) :
    ∀ (d : Nat) (js : List NewsItem) (nb : Nat),
      ∀ p ∈ pauseVals (iterateDayAux f k d js nb).1, p = time_sleep := by
  induction k with
  | zero => intro d js nb p hp; simp [iterateDayAux, pauseVals] at hp
  | succ k ih =>
    intro d js nb p hp
    rw [pauseVals_iterateDayAux_succ] at hp
    rcases List.mem_append.mp hp with hp | hp
    · by_cases h : (record_call nb).2.2 <;> simp [h] at hp
      exact hp
    · exact ih (d + 1) (js ++ f d) (record_call nb).2.1 p hp

theorem incThenFetch_iterateDayAux (f : Nat → List NewsItem) (k : Nat) :
    ∀ (d : Nat) (js : List NewsItem) (nb : Nat),
      IncThenFetch (iterateDayAux f k d js nb).1 := by
  induction k with
  | zero => intro d js nb; exact IncThenFetch.nil
  | succ k ih =>
    intro d js nb
    by_cases h : (record_call nb).2.2 <;> simp [iterateDayAux, h]
    · exact IncThenFetch.pairPause _ _ _ _
        (ih (d + 1) (js ++ f d) (record_call nb).2.1)
    · exact IncThenFetch.pair _ _ _
        (ih (d + 1) (js ++ f d) (record_call nb).2.1)

theorem incVals_length_iterateDayAux (f : Nat → List NewsItem) (k : Nat) :
    ∀ (d : Nat) (js : List NewsItem) (nb : Nat),
      (incVals (iterateDayAux f k d js nb).1).length = k := by
  induction k with
  | zero => intro d js nb; simp [iterateDayAux, incVals]
  | succ k ih =>
    intro d js nb
    by_cases h : (record_call nb).2.2 <;>
      simp [iterateDayAux, incVals, h, List.filterMap_append] <;>
      exact ih (d + 1) (js ++ f d) (record_call nb).2.1

theorem pairwise_lt_range_add (k d : Nat) :
    List.Pairwise (· < ·) ((List.range k).map (fun i => d + i)) := by
  induction k generalizing d with
  | zero => simp
  | succ k ih =>
    rw [range_map_add_succ]
    refine List.pairwise_cons.mpr ⟨?_, ih (d + 1)⟩
    intro x hx
    rcases List.mem_map.mp hx with ⟨i, _, rfl⟩
    omega

theorem nbSteps_add (a : Nat) :
    ∀ (b nb : Nat), nbSteps (a + b) nb = nbSteps b (nbSteps a nb) := by
  induction a with
  | zero => intro b nb; rw [Nat.zero_add]; rfl
  | succ a ih =>
    intro b nb
    have h : a + 1 + b = (a + b) + 1 := by omega
    rw [h]
    show nbSteps (a + b) (record_call nb).2.1 = _
    rw [ih b (record_call nb).2.1]
    rfl

theorem finnhubLoop_writes (f : String → Nat → List NewsItem) (k d : Nat) :
    ∀ (ts : List String) (js : List NewsItem) (nb : Nat),
      (finnhubLoop f k d ts js nb).1
        = ts.map (fun t => (t, windowItems (f t) k d)) := by
  intro ts
  induction ts with
  | nil => intro js nb; rfl
  | cons t ts ih =>
    intro js nb
    show (t, (iterateDayAux (f t) k d ([] : List NewsItem) nb).2.1) :: _ = _
    rw [js_iterateDayAux, List.nil_append, List.map_cons]
    exact congrArg _ (ih _ _)

theorem finnhubLoop_nb (f : String → Nat → List NewsItem) (k d : Nat) :
    ∀ (ts : List String) (js : List NewsItem) (nb : Nat),
      (finnhubLoop f k d ts js nb).2 = nbSteps (ts.length * k) nb := by
  intro ts
  induction ts with
  | nil => intro js nb; simp [finnhubLoop, nbSteps]
  | cons t ts ih =>
    intro js nb
    show (finnhubLoop f k d ts _ (iterateDayAux (f t) k d ([] : List NewsItem) nb).2.2).2 = _
    rw [ih, nb_iterateDayAux]
    have h1 : (t :: ts).length * k = k + ts.length * k := by
      simp [List.length_cons]
      ring
    rw [h1, nbSteps_add]

theorem windowItems_eq_flatMap (f : Nat → List NewsItem) (k : Nat) :
    ∀ d : Nat, windowItems f k d = ((List.range k).map (fun i => d + i)).flatMap f := by
  induction k with
  | zero => intro d; simp [windowItems]
  | succ k ih =>
    intro d
    rw [windowItems, range_map_add_succ, List.flatMap_cons, ih (d + 1)]

theorem iterate_day_run_eq (f : Nat → List NewsItem) (s e : String)
    (ds de : Date) (js : List NewsItem) (nb : Nat)
    (hs : parseDate s = some ds) (he : parseDate e = some de) :
    iterate_day_run f s e js nb
      = some (iterateDayAux f
          (((toOrdinal ds : Int) - (toOrdinal de : Int)).natAbs + 1)
          (toOrdinal ds) js nb) := by
  unfold iterate_day_run delta_date
  rw [hs, he]

end WebScrap

namespace WebScrap

/-- C3: for every ticker (the per-day fetch results f are arbitrary) and
every date window of length N days (start at most end, N the inclusive
day count), the ingestion loop issues exactly N fetch calls, exactly one
per calendar day of the window, in strictly ascending date order, and
each fetch is immediately preceded by exactly one counter increment. -/
theorem c3_one_fetch_per_day (f : Nat → List NewsItem) (s e : String)
    (ds de : Date) (js : List NewsItem) (nb : Nat)
    (hs : parseDate s = some ds) (he : parseDate e = some de)
    (hle : toOrdinal ds ≤ toOrdinal de) :
    ∃ evs jsf nbf,
      iterate_day_run f s e js nb = some (evs, jsf, nbf) ∧
      fetchedDays evs
        = (List.range (toOrdinal de - toOrdinal ds + 1)).map
            (fun i => toOrdinal ds + i) ∧
      (fetchedDays evs).length = toOrdinal de - toOrdinal ds + 1 ∧
      List.Pairwise (· < ·) (fetchedDays evs) ∧
      IncThenFetch evs ∧
      (incVals evs).length = (fetchedDays evs).length := by
  have heq := iterate_day_run_eq f s e ds de js nb hs he
  have hN : ((toOrdinal ds : Int) - (toOrdinal de : Int)).natAbs + 1
      = toOrdinal de - toOrdinal ds + 1 := by omega
  rw [hN] at heq
  have h1 := fetchedDays_iterateDayAux f (toOrdinal de - toOrdinal ds + 1)
    (toOrdinal ds) js nb
  have h2 := incThenFetch_iterateDayAux f (toOrdinal de - toOrdinal ds + 1)
    (toOrdinal ds) js nb
  have h3 := incVals_length_iterateDayAux f (toOrdinal de - toOrdinal ds + 1)
    (toOrdinal ds) js nb
  refine ⟨(iterateDayAux f (toOrdinal de - toOrdinal ds + 1) (toOrdinal ds) js nb).1,
    (iterateDayAux f (toOrdinal de - toOrdinal ds + 1) (toOrdinal ds) js nb).2.1,
    (iterateDayAux f (toOrdinal de - toOrdinal ds + 1) (toOrdinal ds) js nb).2.2,
    heq, h1, ?_, ?_, h2, ?_⟩
  · rw [h1]; simp
  · rw [h1]; exact pairwise_lt_range_add _ _
  · rw [h3, h1]; simp

theorem c3_one_fetch_per_day_witness :
    parseDate "2021-01-01" = some ⟨2021, 1, 1⟩ ∧
    parseDate "2021-01-05" = some ⟨2021, 1, 5⟩ ∧
    toOrdinal ⟨2021, 1, 1⟩ ≤ toOrdinal ⟨2021, 1, 5⟩ ∧
    (∃ evs jsf nbf,
      iterate_day_run (fun _ => ([] : List NewsItem)) "2021-01-01" "2021-01-05"
          [] 0 = some (evs, jsf, nbf) ∧
      fetchedDays evs
        = (List.range (toOrdinal ⟨2021, 1, 5⟩ - toOrdinal ⟨2021, 1, 1⟩ + 1)).map
            (fun i => toOrdinal ⟨2021, 1, 1⟩ + i) ∧
      (fetchedDays evs).length = toOrdinal ⟨2021, 1, 5⟩ - toOrdinal ⟨2021, 1, 1⟩ + 1 ∧
      List.Pairwise (· < ·) (fetchedDays evs) ∧
      IncThenFetch evs ∧
      (incVals evs).length = (fetchedDays evs).length) :=
  ⟨by decide, by decide, by decide,
    c3_one_fetch_per_day (fun _ => ([] : List NewsItem)) "2021-01-01" "2021-01-05"
      ⟨2021, 1, 1⟩ ⟨2021, 1, 5⟩ [] 0 (by decide) (by decide) (by decide)⟩

/-- C8: for every pair of parseable dates the date window produced by the
day iteration has length equal to the absolute day difference plus one;
in particular the window from 2021-01-01 to itself has one element and
the window from 2021-01-01 to 2021-01-05 has five. -/
theorem c8_window_length (s e : String) (ds de : Date)
    (hs : parseDate s = some ds) (he : parseDate e = some de) :
    (∃ l, days_between s e = some l ∧
        l.length = ((toOrdinal de : Int) - (toOrdinal ds : Int)).natAbs + 1) ∧
    (days_between "2021-01-01" "2021-01-01").map List.length = some 1 ∧
    (days_between "2021-01-01" "2021-01-05").map List.length = some 5 := by
  refine ⟨?_, by decide, by decide⟩
  have heq := iterate_day_run_eq (fun _ => ([] : List NewsItem)) s e ds de [] 0 hs he
  refine ⟨fetchedDays (iterateDayAux (fun _ => ([] : List NewsItem))
      (((toOrdinal ds : Int) - (toOrdinal de : Int)).natAbs + 1)
      (toOrdinal ds) [] 0).1, ?_, ?_⟩
  · unfold days_between
    rw [heq]
    rfl
  · rw [fetchedDays_iterateDayAux]
    simp
    omega

theorem c8_window_length_witness :
    parseDate "2021-03-05" = some ⟨2021, 3, 5⟩ ∧
    parseDate "2021-03-09" = some ⟨2021, 3, 9⟩ ∧
    ((∃ l, days_between "2021-03-05" "2021-03-09" = some l ∧
        l.length
          = ((toOrdinal ⟨2021, 3, 9⟩ : Int) - (toOrdinal ⟨2021, 3, 5⟩ : Int)).natAbs + 1) ∧
     (days_between "2021-01-01" "2021-01-01").map List.length = some 1 ∧
     (days_between "2021-01-01" "2021-01-05").map List.length = some 5) :=
  ⟨by decide, by decide,
    c8_window_length "2021-03-05" "2021-03-09" ⟨2021, 3, 5⟩ ⟨2021, 3, 9⟩
      (by decide) (by decide)⟩

/-- C10: for every pair of parseable dates, including an inverted pair
with start after end, the loop performs exactly the absolute day
difference plus one fetch calls, on strictly ascending consecutive days
starting from the start date, never going backwards in time; when start
is after end every day queried is strictly after the end date. -/
theorem c10_forward_iteration (f : Nat → List NewsItem) (s e : String)
    (ds de : Date) (js : List NewsItem) (nb : Nat)
    (hs : parseDate s = some ds) (he : parseDate e = some de) :
    ∃ evs jsf nbf,
      iterate_day_run f s e js nb = some (evs, jsf, nbf) ∧
      fetchedDays evs
        = (List.range (((toOrdinal ds : Int) - (toOrdinal de : Int)).natAbs + 1)).map
            (fun i => toOrdinal ds + i) ∧
      (fetchedDays evs).length
        = ((toOrdinal ds : Int) - (toOrdinal de : Int)).natAbs + 1 ∧
      List.Pairwise (· < ·) (fetchedDays evs) ∧
      (∀ d ∈ fetchedDays evs, toOrdinal ds ≤ d) ∧
      (toOrdinal de < toOrdinal ds → ∀ d ∈ fetchedDays evs, toOrdinal de < d) := by
  have heq := iterate_day_run_eq f s e ds de js nb hs he
  have h1 := fetchedDays_iterateDayAux f
    (((toOrdinal ds : Int) - (toOrdinal de : Int)).natAbs + 1) (toOrdinal ds) js nb
  refine ⟨(iterateDayAux f (((toOrdinal ds : Int) - (toOrdinal de : Int)).natAbs + 1)
      (toOrdinal ds) js nb).1,
    (iterateDayAux f (((toOrdinal ds : Int) - (toOrdinal de : Int)).natAbs + 1)
      (toOrdinal ds) js nb).2.1,
    (iterateDayAux f (((toOrdinal ds : Int) - (toOrdinal de : Int)).natAbs + 1)
      (toOrdinal ds) js nb).2.2,
    heq, h1, ?_, ?_, ?_, ?_⟩
  · rw [h1]; simp
  · rw [h1]; exact pairwise_lt_range_add _ _
  · rw [h1]
    intro d hd
    rcases List.mem_map.mp hd with ⟨i, _, rfl⟩
    omega
  · rw [h1]
    intro hlt d hd
    rcases List.mem_map.mp hd with ⟨i, _, rfl⟩
    omega

theorem c10_forward_iteration_witness :
    parseDate "2021-01-05" = some ⟨2021, 1, 5⟩ ∧
    parseDate "2021-01-01" = some ⟨2021, 1, 1⟩ ∧
    (∃ evs jsf nbf,
      iterate_day_run (fun _ => ([] : List NewsItem)) "2021-01-05" "2021-01-01"
          [] 0 = some (evs, jsf, nbf) ∧
      fetchedDays evs
        = (List.range (((toOrdinal ⟨2021, 1, 5⟩ : Int)
              - (toOrdinal ⟨2021, 1, 1⟩ : Int)).natAbs + 1)).map
            (fun i => toOrdinal ⟨2021, 1, 5⟩ + i) ∧
      (fetchedDays evs).length
        = ((toOrdinal ⟨2021, 1, 5⟩ : Int) - (toOrdinal ⟨2021, 1, 1⟩ : Int)).natAbs + 1 ∧
      List.Pairwise (· < ·) (fetchedDays evs) ∧
      (∀ d ∈ fetchedDays evs, toOrdinal ⟨2021, 1, 5⟩ ≤ d) ∧
      (toOrdinal ⟨2021, 1, 1⟩ < toOrdinal ⟨2021, 1, 5⟩ →
        ∀ d ∈ fetchedDays evs, toOrdinal ⟨2021, 1, 1⟩ < d)) :=
  ⟨by decide, by decide,
    c10_forward_iteration (fun _ => ([] : List NewsItem)) "2021-01-05" "2021-01-01"
      ⟨2021, 1, 5⟩ ⟨2021, 1, 1⟩ [] 0 (by decide) (by decide)⟩

/-- C9: the js_data buffer is cleared at the start of each ticker of the
driver loop, so whatever buffer content js and counter nb are inherited,
the items handed to the table writer for each ticker are exactly the
items fetched for the days of that ticker's window, with nothing carried
over from earlier tickers. -/
theorem c9_buffer_cleared (f : String → Nat → List NewsItem) (k d : Nat)
    (ts : List String) (js : List NewsItem) (nb : Nat) :
    (finnhubLoop f k d ts js nb).1
      = ts.map (fun t => (t, ((List.range k).map (fun i => d + i)).flatMap (f t))) := by
  rw [finnhubLoop_writes]
  exact List.map_congr_left (fun t _ => by rw [windowItems_eq_flatMap])

/-- C1: the rate limiter with quota max_call = 60 and window time_sleep
= 60 seconds: every recorded call increments the counter by exactly one;
a pause happens exactly when the incremented counter reaches
max_call - 1, lasts time_sleep seconds and is followed by the counter
being exactly 0; starting at or below max_call - 2 the counter never
exceeds max_call - 1; and the counter is threaded across the per-ticker
loop exactly as a single uninterrupted sequence of recorded calls, i.e.
it is not reset when moving from one ticker to the next. -/
theorem c1_rate_limiter :
    max_call = 60 ∧ time_sleep = 60 ∧
    (∀ nb : Nat, (record_call nb).1 = nb + 1) ∧
    (∀ nb : Nat, ((record_call nb).2.2 = true ↔ nb + 1 = max_call - 1)) ∧
    (∀ nb : Nat, (record_call nb).2.2 = true → (record_call nb).2.1 = 0) ∧
    (∀ (f : Nat → List NewsItem) (k d : Nat) (js : List NewsItem) (nb : Nat),
      nb ≤ max_call - 2 →
        (∀ v ∈ incVals (iterateDayAux f k d js nb).1, v ≤ max_call - 1) ∧
        (iterateDayAux f k d js nb).2.2 ≤ max_call - 2) ∧
    (∀ (f : Nat → List NewsItem) (k d : Nat) (js : List NewsItem) (nb : Nat),
      ∀ p ∈ pauseVals (iterateDayAux f k d js nb).1, p = time_sleep) ∧
    (∀ (f : String → Nat → List NewsItem) (k d : Nat) (ts : List String)
        (js : List NewsItem) (nb : Nat),
      (finnhubLoop f k d ts js nb).2 = nbSteps (ts.length * k) nb) := by
  refine ⟨rfl, rfl, ?_, ?_, ?_, ?_, ?_, ?_⟩
  · intro nb; unfold record_call; split <;> rfl
  · intro nb
    unfold record_call
    split <;> simp_all
  · intro nb
    unfold record_call
    split <;> simp_all
  · intro f k d js nb h
    exact ⟨incVals_iterateDayAux_le f k d js nb h,
      final_nb_iterateDayAux_le f k d js nb h⟩
  · intro f k d js nb
    exact pauseVals_iterateDayAux f k d js nb
  · intro f k d ts js nb
    exact finnhubLoop_nb f k d ts js nb

theorem c1_rate_limiter_witness :
    ((record_call 58).2.2 = true) ∧
    ((record_call 58).2.1 = 0) ∧
    (0 ≤ max_call - 2) ∧
    ((∀ v ∈ incVals (iterateDayAux (fun _ => ([] : List NewsItem)) 3 0 [] 0).1,
        v ≤ max_call - 1) ∧
      (iterateDayAux (fun _ => ([] : List NewsItem)) 3 0 [] 0).2.2 ≤ max_call - 2) :=
  ⟨by decide, c1_rate_limiter.2.2.2.2.1 58 (by decide), by decide,
    c1_rate_limiter.2.2.2.2.2.1 (fun _ => ([] : List NewsItem)) 3 0 [] 0 (by decide)⟩

/-- A persisted row of a ticker table: the SQLite rowid together with
the nine nullable columns of news_header, in the order of lines 163 and
251-254. -/
structure DbRow where
  rowid : Nat
  category : Option String
  datetime : Option String
  headline : Option String
  idv : Option String
  image : Option String
  related : Option String
  source : Option String
  summary : Option String
  url : Option String
deriving DecidableEq

/-- SQLite trim(X) with one argument: removes spaces (only the space
character) from both ends. -/
def sqlTrim (s : String) : String :=
  String.mk (((s.toList.dropWhile (fun c => decide (c = ' '))).reverse.dropWhile
    (fun c => decide (c = ' '))).reverse)

/-- The per-column deletion test of clean_table pass 1: the value IS
NULL or trims to the empty string. -/
def blank : Option String → Bool
  | none => true
  | some s => decide (sqlTrim s = "")

/-- Pass 1 of FinnHub.clean_table (lines 213-217): the first DELETE
removes rows with a NULL-or-blank headline, the second removes rows with
a NULL-or-blank datetime. -/
def clean_pass1 (t : List DbRow) : List DbRow :=
  (t.filter (fun r => !(blank r.headline))).filter (fun r => !(blank r.datetime))

/-- The SQL MIN aggregate over a list of rowids (none on an empty
group). -/
def sqlMin : List Nat → Option Nat
  | [] => none
  | x :: xs =>
    match sqlMin xs with
    | none => some x
    | some m => some (if x ≤ m then x else m)

/-- MIN(rowid) of the group of rows of t whose headline equals h, as
computed by the GROUP BY headline subquery of clean_table. -/
def minRowidOf (t : List DbRow) (h : Option String) : Option Nat :=
  sqlMin ((t.filter (fun r => decide (r.headline = h))).map DbRow.rowid)

/-- The result set of SELECT MIN(rowid) FROM t GROUP BY headline: one
minimal rowid per distinct headline value. -/
def minRowids (t : List DbRow) : List Nat :=
  ((t.map DbRow.headline).dedup).filterMap (fun h => minRowidOf t h)

/-- Pass 2 of FinnHub.clean_table (lines 220-221): DELETE the rows whose
rowid is NOT IN the per-headline-group minimal rowids. -/
def clean_pass2 (t : List DbRow) : List DbRow :=
  t.filter (fun r => decide (r.rowid ∈ minRowids t))

/-- FinnHub.clean_table (lines 200-221): pass 1 then pass 2. -/
def clean_table (t : List DbRow) : List DbRow :=
  clean_pass2 (clean_pass1 t)

/-- FinnHub.lang_review (lines 279-301), with the langdetect detector
abstracted by det. The cursor iterates the SELECT of the headline
column; in each iteration the headline is appended to the candidate list
when its detected language is not en, and then the DELETE query is built
and executed on the same cursor (lines 300-301 are inside the for loop).
Executing on the cursor being iterated resets it, so the loop ends after
the first row: only the first headline is ever examined. An empty
candidate list yields DELETE ... IN (), which SQLite accepts as an empty
set matching nothing. -/
def lang_review (det : Option String → String) (t : List DbRow) : List DbRow :=
  match t.map DbRow.headline with
  | [] => t
  | h :: _ =>
    t.filter (fun r =>
      decide (¬ r.headline ∈ (if det h ≠ "en" then [h] else [])))

/-- Modelled from the spec: the Language Filter of section 4.7, which
scans every remaining headline, collects the candidates whose detected
language differs from the target en, and deletes them in a single
batched query only after the scan completes. -/
def lang_review_spec (det : Option String → String) (t : List DbRow) : List DbRow :=
  t.filter (fun r =>
    decide (¬ r.headline ∈ ((t.map DbRow.headline).filter (fun h => decide (det h ≠ "en")))))

/-- A fully populated row of the language-filter example table. -/
def seedRow (i : Nat) (h : String) : DbRow :=
  ⟨i, some "company", some "1612137600", some h, some "0", some "",
   some "AMZN", some "src", some "sum", some "url"⟩

/-- The example table of the spec: three rows whose headlines are Stock
rises, La bourse monte and Earnings beat. -/
def seededTable : List DbRow :=
  [seedRow 1 "Stock rises", seedRow 2 "La bourse monte", seedRow 3 "Earnings beat"]

/-- Modelled from the spec: the best-effort language detector classifies
La bourse monte as fr and the two English headlines as en, as assumed by
the example of section 8. -/
def det3 (h : Option String) : String :=
  if h = some "La bourse monte" then "fr" else "en"

/-- C4 (code bug): on the table seeded with the three example headlines
and the example detector, the source lang_review deletes nothing at all,
because the DELETE is built and executed inside the scan loop on the
cursor being iterated, which resets the cursor after the first (English)
row; the single-batched-delete behaviour of the spec would remove
exactly the French row. The two results differ, so the claimed outcome
and the claimed batching both fail on the code. -/
theorem c4_lang_filter_code_bug :
    lang_review det3 seededTable = seededTable ∧
    lang_review_spec det3 seededTable
      = [seedRow 1 "Stock rises", seedRow 3 "Earnings beat"] ∧
    lang_review det3 seededTable ≠ lang_review_spec det3 seededTable := by
  decide

theorem sqlMin_eq_none_iff (l : List Nat) : sqlMin l = none ↔ l = [] := by
  cases l with
  | nil => simp [sqlMin]
  | cons x xs =>
    simp only [sqlMin]
    cases h : sqlMin xs <;> simp

theorem sqlMin_mem {l : List Nat} {m : Nat} (h : sqlMin l = some m) : m ∈ l := by
  induction l generalizing m with
  | nil => simp [sqlMin] at h
  | cons x xs ih =>
    simp only [sqlMin] at h
    cases hxs : sqlMin xs with
    | none =>
      rw [hxs] at h
      simp at h
      simp [h]
    | some m2 =>
      rw [hxs] at h
      simp only [Option.some.injEq] at h
      split at h
      · rw [← h]
        exact List.mem_cons_self x xs
      · rw [← h]
        exact List.mem_cons_of_mem x (ih hxs)

theorem filter_rowid_eq_of_nodup {l : List DbRow}
    (hn : (l.map DbRow.rowid).Nodup) {m : Nat} {x : DbRow}
    (hx : x ∈ l) (hxm : x.rowid = m) :
    l.filter (fun y => decide (y.rowid = m)) = [x] := by
  induction l with
  | nil => simp at hx
  | cons a l ih =>
    rw [List.map_cons, List.nodup_cons] at hn
    rcases List.mem_cons.mp hx with rfl | hx2
    · rw [List.filter_cons_of_pos (by simp [hxm])]
      refine congrArg _ (List.filter_eq_nil_iff.mpr ?_)
      intro y hy hym
      exact hn.1 (by
        rw [decide_eq_true_eq] at hym
        rw [hxm, ← hym]
        exact List.mem_map_of_mem DbRow.rowid hy)
    · rw [List.filter_cons_of_neg, ih hn.2 hx2]
      intro ha
      rw [decide_eq_true_eq] at ha
      exact hn.1 (by
        rw [ha, ← hxm]
        exact List.mem_map_of_mem DbRow.rowid hx2)

theorem mem_minRowids_iff {s : List DbRow} (hn : (s.map DbRow.rowid).Nodup)
    {r : DbRow} (hr : r ∈ s) :
    r.rowid ∈ minRowids s ↔ minRowidOf s r.headline = some r.rowid := by
  constructor
  · intro h
    rcases List.mem_filterMap.mp h with ⟨h0, _, hmin⟩
    rcases List.mem_map.mp (sqlMin_mem hmin) with ⟨q, hq, hqr⟩
    have hq2 := List.mem_filter.mp hq
    have hqh : q.headline = h0 := by
      have hd := hq2.2
      rwa [decide_eq_true_eq] at hd
    have hqr2 : q = r := List.inj_on_of_nodup_map hn hq2.1 hr hqr
    rw [← hqh, hqr2] at hmin
    exact hmin
  · intro h
    exact List.mem_filterMap.mpr
      ⟨r.headline, List.mem_dedup.mpr (List.mem_map_of_mem DbRow.headline hr), h⟩

theorem clean_pass1_sublist (t : List DbRow) : List.Sublist (clean_pass1 t) t :=
  List.Sublist.trans (List.filter_sublist _) (List.filter_sublist _)

theorem clean_pass1_rowid_nodup (t : List DbRow)
    (hid : (t.map DbRow.rowid).Pairwise (· < ·)) :
    ((clean_pass1 t).map DbRow.rowid).Nodup :=
  (List.Pairwise.sublist ((clean_pass1_sublist t).map DbRow.rowid) hid).imp
    Nat.ne_of_lt

/-- C2 (amended): after the two passes of clean_table on a table whose
rowids strictly increase in insertion order, no remaining row has a
NULL-or-blank headline or datetime, and for every headline value the
surviving rows are exactly the single pass-1 survivor of that headline
group with the minimal rowid (none when pass 1 removed the whole
group). -/
theorem c2_cleaner (t : List DbRow)
    (hid : (t.map DbRow.rowid).Pairwise (· < ·)) :
    (∀ r ∈ clean_table t, blank r.headline = false ∧ blank r.datetime = false) ∧
    (∀ h : Option String,
      ((clean_table t).filter (fun r => decide (r.headline = h))).map DbRow.rowid
        = (minRowidOf (clean_pass1 t) h).toList) := by
  have hn : ((clean_pass1 t).map DbRow.rowid).Nodup := clean_pass1_rowid_nodup t hid
  constructor
  · intro r hr
    have hr1 : r ∈ clean_pass1 t := (List.mem_filter.mp hr).1
    unfold clean_pass1 at hr1
    have hb := List.mem_filter.mp hr1
    have ha := List.mem_filter.mp hb.1
    exact ⟨by simpa using ha.2, by simpa using hb.2⟩
  · intro h
    unfold clean_table clean_pass2
    rw [List.filter_filter]
    have hcong : (clean_pass1 t).filter
        (fun r => decide (r.headline = h)
          && decide (r.rowid ∈ minRowids (clean_pass1 t)))
        = (clean_pass1 t).filter
            (fun r => decide (r.headline = h)
              && decide (minRowidOf (clean_pass1 t) h = some r.rowid)) := by
      refine List.filter_congr ?_
      intro r hr
      by_cases hh : r.headline = h
      · have hiff := mem_minRowids_iff hn hr
        rw [hh] at hiff
        exact congrArg (fun b => decide (r.headline = h) && b)
          (decide_eq_decide.mpr hiff)
      · simp [hh]
    rw [hcong]
    cases hmin : minRowidOf (clean_pass1 t) h with
    | none =>
      have hnil : (clean_pass1 t).filter
          (fun r => decide (r.headline = h)
            && decide ((none : Option Nat) = some r.rowid)) = [] :=
        List.filter_eq_nil_iff.mpr (by intro r _; simp)
      rw [hnil]
      rfl
    | some m =>
      rcases List.mem_map.mp (sqlMin_mem hmin) with ⟨x, hxf, hxm⟩
      have hgn : (((clean_pass1 t).filter
          (fun r => decide (r.headline = h))).map DbRow.rowid).Nodup :=
        List.Pairwise.sublist ((List.filter_sublist _).map DbRow.rowid) hn
      have hpred : ((clean_pass1 t).filter
          (fun r => decide (r.headline = h)
            && decide ((some m : Option Nat) = some r.rowid)))
          = ((clean_pass1 t).filter (fun r => decide (r.headline = h))).filter
              (fun r => decide (r.rowid = m)) := by
        rw [List.filter_filter]
        refine List.filter_congr ?_
        intro r _
        by_cases hrh : r.headline = h <;> by_cases hrm : r.rowid = m <;>
          simp [hrh, hrm]
        all_goals omega
      rw [hpred, filter_rowid_eq_of_nodup hgn hxf hxm]
      simp [hxm]

theorem c2_cleaner_witness :
    (((([⟨1, none, some "x", some "A", none, none, none, none, none, none⟩,
        ⟨2, none, some "y", some "A", none, none, none, none, none, none⟩,
        ⟨3, none, some "z", some "B", none, none, none, none, none, none⟩]
          : List DbRow).map DbRow.rowid).Pairwise (· < ·)) ∧
      ((∀ r ∈ clean_table [⟨1, none, some "x", some "A", none, none, none, none, none, none⟩,
          ⟨2, none, some "y", some "A", none, none, none, none, none, none⟩,
          ⟨3, none, some "z", some "B", none, none, none, none, none, none⟩],
          blank r.headline = false ∧ blank r.datetime = false) ∧
       (∀ h : Option String,
        ((clean_table [⟨1, none, some "x", some "A", none, none, none, none, none, none⟩,
            ⟨2, none, some "y", some "A", none, none, none, none, none, none⟩,
            ⟨3, none, some "z", some "B", none, none, none, none, none, none⟩]).filter
              (fun r => decide (r.headline = h))).map DbRow.rowid
          = (minRowidOf (clean_pass1
              [⟨1, none, some "x", some "A", none, none, none, none, none, none⟩,
               ⟨2, none, some "y", some "A", none, none, none, none, none, none⟩,
               ⟨3, none, some "z", some "B", none, none, none, none, none, none⟩]) h).toList))) :=
  ⟨by decide, c2_cleaner _ (by decide)⟩

/-- C2 counterexample: with two rows sharing the headline A where the
earlier-inserted row 1 has a blank datetime, the survivor of the group
is row 2, not the row with the lowest rowid among the input rows sharing
that headline, refuting the claim as stated over input rows. -/
theorem c2_counterexample :
    clean_table [⟨1, none, some " ", some "A", none, none, none, none, none, none⟩,
        ⟨2, none, some "t", some "A", none, none, none, none, none, none⟩]
      = [⟨2, none, some "t", some "A", none, none, none, none, none, none⟩] ∧
    ¬ (∀ r ∈ clean_table
          [⟨1, none, some " ", some "A", none, none, none, none, none, none⟩,
           ⟨2, none, some "t", some "A", none, none, none, none, none, none⟩],
        ∀ q ∈ ([⟨1, none, some " ", some "A", none, none, none, none, none, none⟩,
           ⟨2, none, some "t", some "A", none, none, none, none, none, none⟩] : List DbRow),
        q.headline = r.headline → r.rowid ≤ q.rowid) := by
  decide

/-- FinnHub.news_header (line 163): the nine column names. -/
def news_header : List String :=
  ["category", "datetime", "headline", "id", "image", "related",
   "source", "summary", "url"]

/-- A Python dict lookup on an item: none models the KeyError raised
when the key is missing; a present key yields its value, itself an
option since a JSON null becomes an SQL NULL. -/
def getKey (it : NewsItem) (k : String) : Option (Option String) :=
  (it.find? (fun p => decide (p.1 = k))).map (fun p => p.2)

/-- The row built for one item by the INSERT of lines 251-254: the nine
header fields are looked up in order; any missing key makes the whole
row fail. -/
def insertRow (it : NewsItem) : Option (List (Option String)) :=
  news_header.mapM (fun k => getKey it k)

/-- The insert loop of FinnHub.create_table (lines 247-258): the
iteration counter is incremented before each try, so positions are
1-based; a failing row is skipped and its position logged by the except
branch; every other row is inserted in order and committed. Returns the
inserted rows and the logged positions. -/
def write_allAux : List NewsItem → Nat → List (List (Option String)) × List Nat
  | [], _ => ([], [])
  | it :: rest, iteration =>
    match insertRow it with
    | some r =>
      (r :: (write_allAux rest (iteration + 1)).1,
       (write_allAux rest (iteration + 1)).2)
    | none =>
      ((write_allAux rest (iteration + 1)).1,
       (iteration + 1) :: (write_allAux rest (iteration + 1)).2)

/-- FinnHub.create_table (lines 224-258): the table is dropped and
recreated empty, then the accumulated batch is inserted with the
iteration counter starting at 0. -/
def create_table (items : List NewsItem) : List (List (Option String)) × List Nat :=
  write_allAux items 0

/-- An item carrying all nine fields, tagged for recognizability. -/
def fullItem (tag : String) : NewsItem :=
  news_header.map (fun k => (k, some (k ++ tag)))

/-- The row that fullItem inserts. -/
def itemRow (tag : String) : List (Option String) :=
  news_header.map (fun k => some (k ++ tag))

/-- A malformed item: the headline key is missing, so its lookup raises
KeyError and the row insert fails. -/
def brokenItem : NewsItem :=
  (fullItem "3").filter (fun p => decide (p.1 ≠ "headline"))

/-- The five-item example batch of the spec, with item 3 malformed. -/
def ex5 : List NewsItem :=
  [fullItem "1", fullItem "2", brokenItem, fullItem "4", fullItem "5"]

theorem write_allAux_spec (items : List NewsItem) :
    ∀ n : Nat,
      (write_allAux items n).1 = items.filterMap insertRow ∧
      (write_allAux items n).2
        = ((List.enumFrom n items).filter
            (fun p => decide (insertRow p.2 = none))).map (fun p => p.1 + 1) := by
  induction items with
  | nil => intro n; simp [write_allAux, List.enumFrom]
  | cons it rest ih =>
    intro n
    cases hit : insertRow it with
    | some r =>
      constructor
      · simp only [write_allAux, hit, List.filterMap_cons]
        exact congrArg _ (ih (n + 1)).1
      · simp only [write_allAux, hit, List.enumFrom, List.filter_cons,
          decide_eq_true_eq]
        rw [if_neg (by simp [hit])]
        exact (ih (n + 1)).2
    | none =>
      constructor
      · simp only [write_allAux, hit, List.filterMap_cons]
        exact (ih (n + 1)).1
      · simp only [write_allAux, hit, List.enumFrom, List.filter_cons,
          decide_eq_true_eq]
        rw [if_pos (by simp [hit])]
        rw [List.map_cons]
        exact congrArg _ (ih (n + 1)).2

/-- C5: for every batch handed to the insert loop, the inserted rows are
exactly the successfully built rows in the order given, and the logged
failures are exactly the 1-based positions of the items whose row build
fails; in particular on the five-item example with item 3 malformed,
items 1, 2, 4, 5 are inserted and the single failure logged is position
3. -/
theorem c5_write_all_best_effort :
    (∀ items : List NewsItem,
      (create_table items).1 = items.filterMap insertRow ∧
      (create_table items).2
        = ((items.enum.filter (fun p => decide (insertRow p.2 = none))).map
            (fun p => p.1 + 1))) ∧
    (create_table ex5).1 = [itemRow "1", itemRow "2", itemRow "4", itemRow "5"] ∧
    (create_table ex5).2 = [3] := by
  refine ⟨fun items => ?_, by decide, by decide⟩
  have h := write_allAux_spec items 0
  exact ⟨h.1, by rw [List.enum_eq_enumFrom]; exact h.2⟩

/-- The date validation of Init (lines 102-115), with now abstracted by
the value of datetime.now() minus relativedelta(years=1), compared at
day granularity against the midnight start date. Returns the raised
message, or none when the constructor returns normally. Lines 106-109
evaluate the bare comparison start_date_ > end_date_ inside a try; a
comparison expression never raises, so the except branch that would
print about an inverted range is dead and no inversion check is
performed. The only raise is the one of lines 114-115, taken when the
start date is at or before now minus one year. An unparseable date
string raises in strptime (line 102). -/
def Init_validate (start_date end_date : String) (nowMinus1Y : Int) : Option String :=
  match parseDate start_date, parseDate end_date with
  | some s, some _e =>
    if (toOrdinal s : Int) ≤ nowMinus1Y then
      some "start_date is older than 1 year. It does not work with the free version of FinHub"
    else none
  | _, _ => some "time data does not match format"

/-- The module main (lines 312-314): Init() runs first and FinnHub(...)
is constructed only if Init returned; the FinnHub constructor is the
first point at which any HTTP request is made. Returns none when Init
raised (so no ingestion and no HTTP happens), otherwise the per-ticker
writes of the run. -/
def module_main (start_date end_date : String) (nowMinus1Y : Int)
    (f : String → Nat → List NewsItem) (ts : List String) :
    Option (List (String × List NewsItem)) :=
  match Init_validate start_date end_date nowMinus1Y with
  | some _ => none
  | none =>
    match parseDate start_date, parseDate end_date with
    | some s, some e =>
      some (finnhubLoop f
        (((toOrdinal s : Int) - (toOrdinal e : Int)).natAbs + 1)
        (toOrdinal s) ts [] 0).1
    | _, _ => none

/-- C6 (amended): for parseable dates, pipeline construction fails fast,
before any ingestion runs, exactly when the start date is at or before
now minus one year; an inverted range (start chronologically after end)
is not rejected, because the inversion check of lines 106-109 is dead
code, and the run proceeds. -/
theorem c6_fail_fast_only_stale_start (s e : String) (ds de : Date)
    (n1y : Int) (f : String → Nat → List NewsItem) (ts : List String)
    (hs : parseDate s = some ds) (he : parseDate e = some de) :
    (Init_validate s e n1y = none ↔ n1y < (toOrdinal ds : Int)) ∧
    ((toOrdinal ds : Int) ≤ n1y → module_main s e n1y f ts = none) ∧
    (n1y < (toOrdinal ds : Int) →
      module_main s e n1y f ts
        = some (finnhubLoop f
            (((toOrdinal ds : Int) - (toOrdinal de : Int)).natAbs + 1)
            (toOrdinal ds) ts [] 0).1) := by
  have h1 : Init_validate s e n1y
      = (if (toOrdinal ds : Int) ≤ n1y then
          some "start_date is older than 1 year. It does not work with the free version of FinHub"
        else none) := by
    unfold Init_validate
    rw [hs, he]
  by_cases hc : (toOrdinal ds : Int) ≤ n1y
  · have h2 : module_main s e n1y f ts = none := by
      unfold module_main
      rw [h1, if_pos hc]
    refine ⟨?_, fun _ => h2, fun hlt => absurd hc (by omega)⟩
    rw [h1, if_pos hc]
    simp
    omega
  · have h2 : module_main s e n1y f ts
        = some (finnhubLoop f
            (((toOrdinal ds : Int) - (toOrdinal de : Int)).natAbs + 1)
            (toOrdinal ds) ts [] 0).1 := by
      unfold module_main
      rw [h1, if_neg hc]
      show (match parseDate s, parseDate e with
        | some s, some e =>
          some (finnhubLoop f
            (((toOrdinal s : Int) - (toOrdinal e : Int)).natAbs + 1)
            (toOrdinal s) ts [] 0).1
        | _, _ => none) = _
      rw [hs, he]
    refine ⟨?_, fun hle => absurd hle hc, fun _ => h2⟩
    rw [h1, if_neg hc]
    simp
    omega

theorem c6_fail_fast_witness :
    parseDate "2021-01-02" = some ⟨2021, 1, 2⟩ ∧
    parseDate "2021-01-03" = some ⟨2021, 1, 3⟩ ∧
    ((Init_validate "2021-01-02" "2021-01-03" 5 = none
        ↔ (5 : Int) < (toOrdinal ⟨2021, 1, 2⟩ : Int)) ∧
     ((toOrdinal ⟨2021, 1, 2⟩ : Int) ≤ 5 →
        module_main "2021-01-02" "2021-01-03" 5 (fun _ _ => []) ["AMZN"] = none) ∧
     ((5 : Int) < (toOrdinal ⟨2021, 1, 2⟩ : Int) →
        module_main "2021-01-02" "2021-01-03" 5 (fun _ _ => []) ["AMZN"]
          = some (finnhubLoop (fun _ _ => [])
              (((toOrdinal ⟨2021, 1, 2⟩ : Int)
                  - (toOrdinal ⟨2021, 1, 3⟩ : Int)).natAbs + 1)
              (toOrdinal ⟨2021, 1, 2⟩) ["AMZN"] [] 0).1)) :=
  ⟨by decide, by decide,
    c6_fail_fast_only_stale_start "2021-01-02" "2021-01-03" ⟨2021, 1, 2⟩
      ⟨2021, 1, 3⟩ 5 (fun _ _ => []) ["AMZN"] (by decide) (by decide)⟩

/-- C6 counterexample: a start date after the end date (both parseable,
start recent enough) makes the claimed ConfigError never happen: Init
returns normally and the pipeline proceeds to run the ingestion for its
ticker. -/
theorem c6_counterexample :
    parseDate "2021-01-05" = some ⟨2021, 1, 5⟩ ∧
    parseDate "2021-01-01" = some ⟨2021, 1, 1⟩ ∧
    toOrdinal ⟨2021, 1, 1⟩ < toOrdinal ⟨2021, 1, 5⟩ ∧
    Init_validate "2021-01-05" "2021-01-01" 0 = none ∧
    module_main "2021-01-05" "2021-01-01" 0 (fun _ _ => []) ["AMZN"]
      = some [("AMZN", [])] := by
  decide

/-- The errors that can surface from the body of req_new. -/
inductive ReqError where
  | transport : ReqError
  | jsonDecode : ReqError
deriving DecidableEq

/-- The observable outcome of the requests.get call for one day: either
the transport raised, or a response arrived carrying a status code and
a body that either decodes as a JSON array of items or fails to
decode. -/
inductive HttpOutcome where
  | transportErr : HttpOutcome
  | response : Nat → Option (List NewsItem) → HttpOutcome

/-- The body of FinnHub.req_new for one day (lines 307-309):
requests.get is followed directly by request_.json() and an append to
js_data. A transport failure propagates out of requests.get, an
undecodable body raises inside json(), and otherwise the decoded items
are returned. The response status code is never inspected. -/
def req_new_day (r : HttpOutcome) : Except ReqError (List NewsItem) :=
  match r with
  | HttpOutcome.transportErr => Except.error ReqError.transport
  | HttpOutcome.response _ none => Except.error ReqError.jsonDecode
  | HttpOutcome.response _ (some items) => Except.ok items

/-- C7 (amended): the single-day fetch fails with a distinct error
exactly on transport failure or an undecodable response body; the
response status is never inspected, so any response whose body decodes
as a JSON array is returned as a success carrying exactly those items
(possibly empty), whatever its status code. -/
theorem c7_fetch_failures_surface (r : HttpOutcome) :
    (req_new_day r = Except.error ReqError.transport
      ↔ r = HttpOutcome.transportErr) ∧
    (req_new_day r = Except.error ReqError.jsonDecode
      ↔ ∃ st, r = HttpOutcome.response st none) ∧
    (∀ items, req_new_day r = Except.ok items
      ↔ ∃ st, r = HttpOutcome.response st (some items)) := by
  rcases r with _ | ⟨st, body⟩
  · simp [req_new_day]
  · rcases body with _ | items <;> simp [req_new_day]

/-- C7 counterexample: a response with non-success status 500 whose body
decodes as an empty JSON array is treated by req_new as a silent empty
success, not as a FetchError. -/
theorem c7_counterexample :
    req_new_day (HttpOutcome.response 500 (some []))
      = Except.ok ([] : List NewsItem) ∧
    (∀ err : ReqError,
      req_new_day (HttpOutcome.response 500 (some [])) ≠ Except.error err) := by
  refine ⟨rfl, ?_⟩
  intro err h
  simp [req_new_day] at h

end WebScrap
